import Mathlib

/- Shallow embedding of the sharded ScyllaDB event sink of
   yellowstone-grpc-tools/src/scylladb/sink.rs and of the producer query layer of
   yellowstone-grpc-tools/src/scylladb/yellowstone_log/consumer_group/producer_queries.rs.

   Conventions:
   - Machine integers i64/i16 become Int or Nat; none of the modelled quantities can
     overflow in the code paths the claims are about, so no wrap-around modelling is needed.
   - `SHARD_OFFSET_MODULO` and `UNDEFINED_SLOT` live in types.rs, which is not part of the
     provided sources; the modulo is kept as an explicit parameter `M` everywhere, and the
     sentinel is a fixed named constant whose concrete value is irrelevant to every claim.
   - Rust's `i64` division and remainder truncate toward zero: they are embedded as
     `Int.tdiv` / `Int.tmod`.
   - Time (`Instant`) is modelled as a natural number supplied to each step; `elapsed()`
     is saturating subtraction, exactly as `Nat` subtraction behaves.
   - Database effects of the shard worker are recorded as an ordered action trace. -/

/-- Modelled from the spec: `UNDEFINED_SLOT` is the slot sentinel declared in types.rs
(absent from src/); its concrete value does not matter for any claim. -/
def UNDEFINED_SLOT : Int := -1

/-- sink.rs: `const DEFAULT_SHARD_MAX_BUFFER_CAPACITY: usize = 15`. -/
def DEFAULT_SHARD_MAX_BUFFER_CAPACITY : Nat := 15

/-- sink.rs `spawn_round_robin`: `const SLOT_SEEN_RETENTION: usize = 9000`. -/
def SLOT_SEEN_RETENTION : Nat := 9000

/-- Payload of an `InsertAccountUpdate` / `InsertTransaction` command: only the slot and
the measurable byte size (`deep_size_of`) matter for the modelled control flow. -/
structure EventIn where
  slot : Int
  byteSize : Nat
deriving DecidableEq

/-- A `BlockchainEvent` as staged by a shard: the command payload stamped with
`(shard_id, producer_id, offset)` by `as_blockchain_event`. -/
structure BlockchainEvent where
  shardId : Nat
  producerId : Nat
  offset : Int
  slot : Int
  byteSize : Nat
deriving DecidableEq

/-- sink.rs `enum ShardCommand`. -/
inductive ShardCommand where
  | shutdown
  | insertAccountUpdate (e : EventIn)
  | insertTransaction (e : EventIn)
deriving DecidableEq

/-- sink.rs `struct Shard` (the `session` handle and the `scylla_batch` are omitted: the
batch statement list evolves in lock-step with `buffer`, which is kept). -/
structure Shard where
  shardId : Nat
  producerId : Nat
  next_offset : Int
  buffer : List BlockchainEvent
  max_buffer_capacity : Nat
  max_buffer_byte_size : Nat
  curr_batch_byte_size : Nat
  buffer_linger : Nat
  last_committed_period : Int
deriving DecidableEq

/-- sink.rs `Shard::new`: panics when `next_offset < 0` (modelled as `none`), otherwise
builds the shard with an empty buffer, zero batch byte size and `last_committed_period = -1`. -/
def Shard.new (shardId : Nat) (producerId : Nat) (next_offset : Int)
    (max_buffer_capacity : Nat) (max_buffer_byte_size : Nat) (buffer_linger : Nat) :
    Option Shard :=
  if next_offset < 0 then none
  else some
    { shardId := shardId
      producerId := producerId
      next_offset := next_offset
      buffer := []
      max_buffer_capacity := max_buffer_capacity
      max_buffer_byte_size := max_buffer_byte_size
      curr_batch_byte_size := 0
      buffer_linger := buffer_linger
      last_committed_period := -1 }

/-- Observable database/channel effects of one shard-daemon loop iteration, in program
order. `flushBatch l` records a call to `Shard::flush` with buffer `l` (the database batch
is issued only when `l` is nonempty; the buffer is cleared either way). -/
inductive ShardAction where
  | periodCommit (producerId : Nat) (shardId : Nat) (period : Int)
  | flushBatch (events : List BlockchainEvent)
  | stage (e : BlockchainEvent)
  | publish (offset : Int)
deriving DecidableEq

/-- Loop-local state of `Shard::into_daemon`: the shard plus the `buffering_timeout`
deadline instant. -/
structure DaemonState where
  shard : Shard
  deadline : Nat
deriving DecidableEq

structure StepResult where
  trace : List ShardAction
  state : DaemonState
  stop : Bool
deriving DecidableEq

/-- The period-boundary condition at the top of the daemon loop (sink.rs lines 246-248):
`offset % SHARD_OFFSET_MODULO == 0 && offset > 0 && last_committed_period != prev_period`. -/
def boundaryFires (M : Int) (sh : Shard) : Prop :=
  sh.next_offset.tmod M = 0 ∧ 0 < sh.next_offset ∧
    sh.last_committed_period ≠ sh.next_offset.tdiv M - 1

instance (M : Int) (sh : Shard) : Decidable (boundaryFires M sh) := by
  unfold boundaryFires; infer_instance

/-- One daemon-loop iteration that receives an insert command (sink.rs lines 240-303):
period-boundary commit check, flush-trigger check, staging, watch publish, offset bump. -/
def shardStepInsert (M : Int) (d : DaemonState) (e : EventIn) (now : Nat) : StepResult :=
  let offset := d.shard.next_offset
  let prev_period := offset.tdiv M - 1
  let fires := boundaryFires M d.shard
  let preActions :=
    if fires then [ShardAction.periodCommit d.shard.producerId d.shard.shardId prev_period]
    else []
  let lastc := if fires then prev_period else d.shard.last_committed_period
  let need_flush :=
    d.shard.max_buffer_capacity ≤ d.shard.buffer.length ∨
    d.shard.max_buffer_byte_size ≤ d.shard.curr_batch_byte_size + e.byteSize ∨
    0 < now - d.deadline
  let flushActs := if need_flush then [ShardAction.flushBatch d.shard.buffer] else []
  let ev : BlockchainEvent :=
    { shardId := d.shard.shardId
      producerId := d.shard.producerId
      offset := offset
      slot := e.slot
      byteSize := e.byteSize }
  { trace := preActions ++ flushActs ++ [ShardAction.stage ev, ShardAction.publish offset]
    state :=
      { shard :=
          { d.shard with
            next_offset := offset + 1
            last_committed_period := lastc
            buffer := (if need_flush then [] else d.shard.buffer) ++ [ev]
            curr_batch_byte_size :=
              (if need_flush then 0 else d.shard.curr_batch_byte_size) + e.byteSize }
        deadline := if need_flush then now + d.shard.buffer_linger else d.deadline }
    stop := false }

/-- One daemon-loop iteration that receives `Shutdown`: the period-boundary check still ran
before `recv`, then the worker flushes and returns. -/
def shardStepShutdown (M : Int) (d : DaemonState) : StepResult :=
  let prev_period := d.shard.next_offset.tdiv M - 1
  let fires := boundaryFires M d.shard
  let preActions :=
    if fires then [ShardAction.periodCommit d.shard.producerId d.shard.shardId prev_period]
    else []
  let lastc := if fires then prev_period else d.shard.last_committed_period
  { trace := preActions ++ [ShardAction.flushBatch d.shard.buffer]
    state :=
      { shard :=
          { d.shard with
            last_committed_period := lastc
            buffer := []
            curr_batch_byte_size := 0 }
        deadline := d.deadline }
    stop := true }

def shardStep (M : Int) (d : DaemonState) (cmd : ShardCommand) (now : Nat) : StepResult :=
  match cmd with
  | .shutdown => shardStepShutdown M d
  | .insertAccountUpdate e => shardStepInsert M d e now
  | .insertTransaction e => shardStepInsert M d e now

/-- Run the daemon over a finite command sequence (each command paired with the instant at
which it is processed); a `Shutdown` ends the run. -/
def shardRun (M : Int) (d : DaemonState) : List (ShardCommand × Nat) → List ShardAction × DaemonState
  | [] => ([], d)
  | (c, now) :: rest =>
    let r := shardStep M d c now
    if r.stop then (r.trace, r.state)
    else
      let rec2 := shardRun M r.state rest
      (r.trace ++ rec2.1, rec2.2)

/-- Run the daemon over insert commands only (the steady-state workload). -/
def shardRunInserts (M : Int) (d : DaemonState) :
    List (EventIn × Nat) → List ShardAction × DaemonState
  | [] => ([], d)
  | (e, now) :: rest =>
    let r := shardStepInsert M d e now
    let rec2 := shardRunInserts M r.state rest
    (r.trace ++ rec2.1, rec2.2)

/-- Number of `PeriodCommit` rows for period `p` in a trace. -/
def countCommit (p : Int) (tr : List ShardAction) : Nat :=
  (tr.filter fun a =>
    match a with
    | .periodCommit _ _ q => q == p
    | _ => false).length

/-- Checks the property claimed of the watch channel: every `publish o` is preceded by a
completed `flushBatch` whose batch contains the event at offset `o`. -/
def publishedOnlyAfterFlush : List Int → List ShardAction → Bool
  | _, [] => true
  | flushed, ShardAction.flushBatch evs :: rest =>
    publishedOnlyAfterFlush (flushed ++ evs.map BlockchainEvent.offset) rest
  | flushed, ShardAction.publish o :: rest =>
    flushed.contains o && publishedOnlyAfterFlush flushed rest
  | flushed, _ :: rest => publishedOnlyAfterFlush flushed rest

def traceHasFlush (tr : List ShardAction) : Bool :=
  tr.any fun a =>
    match a with
    | .flushBatch _ => true
    | _ => false

/- ===== Offset Recovery (sink.rs) ===== -/

/-- One row of the `log` table restricted to the columns Offset Recovery reads. -/
structure LogRowE where
  shard_id : Nat
  period : Int
  offset : Int
  slot : Int
deriving DecidableEq

/-- The database state Offset Recovery reads: the `producer_period_commit_log` rows
(shard_id, period) and the `log` rows of one producer. -/
structure SinkDb where
  periodCommits : List (Nat × Int)
  log : List LogRowE
deriving DecidableEq

def listMaxInt : List Int → Option Int
  | [] => none
  | x :: xs =>
    match listMaxInt xs with
    | none => some x
    | some m => some (max x m)

/-- `SELECT shard_id, period FROM producer_period_commit_log ... PER PARTITION LIMIT 1`,
`+ 1`, defaulting missing shards to period 0: the `current_period` of one shard. -/
def currentPeriodForShard (db : SinkDb) (s : Nat) : Int :=
  match listMaxInt ((db.periodCommits.filter fun r => r.1 == s).map Prod.snd) with
  | some p => p + 1
  | none => 0

/-- `SELECT offset, slot FROM log WHERE ... ORDER BY offset desc PER PARTITION LIMIT 1`:
the row with the greatest offset in the `(shard, period)` partition, if any. -/
def maxOffsetRow (log : List LogRowE) (s : Nat) (p : Int) : Option LogRowE :=
  (log.filter fun r => r.shard_id == s && r.period == p).foldl
    (fun acc r =>
      match acc with
      | none => some r
      | some b => if b.offset < r.offset then some r else some b)
    none

/-- sink.rs `get_max_shard_offsets_for_producer` (the v1 offset+slot variant): on an empty
partition it falls back to `(curr_period * SHARD_OFFSET_MODULO - 1, UNDEFINED_SLOT)`. -/
def get_max_shard_offsets_for_producer (M : Int) (db : SinkDb) (num_shards : Nat) :
    List (Nat × Int × Int) :=
  (List.range num_shards).map fun s =>
    let curr_period := currentPeriodForShard db s
    match maxOffsetRow db.log s curr_period with
    | some r => (s, r.offset, r.slot)
    | none => (s, curr_period * M - 1, UNDEFINED_SLOT)

/-- sink.rs `get_max_shard_offsets_for_producer_v2` (used by `ScyllaSink::new`): on an
empty partition it falls back to offset `0` (`.unwrap_or(0)`). -/
def get_max_shard_offsets_for_producer_v2 (db : SinkDb) (num_shards : Nat) :
    List (Nat × Int) :=
  (List.range num_shards).map fun s =>
    let curr_period := currentPeriodForShard db s
    match maxOffsetRow db.log s curr_period with
    | some r => (s, r.offset)
    | none => (s, 0)

/-- `ScyllaSink::new` feeds each shard `last_offset + 1` as its `next_offset`. -/
def scyllaSinkNextOffsets (db : SinkDb) (num_shards : Nat) : List (Nat × Int) :=
  (get_max_shard_offsets_for_producer_v2 db num_shards).map fun q => (q.1, q.2 + 1)

/-- sink.rs `ScyllaSinkConfig` restricted to the fields the shard workers consume. -/
structure ScyllaSinkConfig where
  batch_len_limit : Nat
  batch_size_kb_limit : Nat
  linger : Nat
deriving DecidableEq

/-- The `Shard::new` call inside `ScyllaSink::new` (sink.rs lines 824-832). -/
def scyllaSinkShard (cfg : ScyllaSinkConfig) (producerId : Nat) (shardId : Nat)
    (last_offset : Int) : Option Shard :=
  Shard.new shardId producerId (last_offset + 1) DEFAULT_SHARD_MAX_BUFFER_CAPACITY
    (cfg.batch_size_kb_limit * 1024) cfg.linger

/- ===== Round-robin router slot tracking (sink.rs `spawn_round_robin`) ===== -/

/-- `BTreeSet<Slot>` modelled as a strictly ascending list; insertion keeps order and drops
duplicates. -/
def btreeInsertSlot (x : Int) : List Int → List Int
  | [] => [x]
  | y :: ys =>
    if x < y then x :: y :: ys
    else if x = y then y :: ys
    else y :: btreeInsertSlot x ys

/-- `while slots_seen.len() >= SLOT_SEEN_RETENTION { slots_seen.pop_first(); }` with fuel;
on an ascending list `pop_first` drops the head, the smallest element. -/
def evictSmallest : Nat → List Int → List Int
  | 0, l => l
  | n + 1, l => if SLOT_SEEN_RETENTION ≤ l.length then evictSmallest n l.tail else l

structure RouterState where
  slots_seen : List Int
  max_slot_seen : Int
deriving DecidableEq

structure RouterStepResult where
  state : RouterState
  warned : Bool
  spawnedWrite : Option Int
deriving DecidableEq

/-- The slot-tracking part of one `spawn_round_robin` loop iteration (sink.rs lines
588-629): on first observation of a slot, evict down to the retention bound, update
`max_slot_seen` (warning instead when the slot arrives late), and spawn the
`producer_slot_seen` insert. -/
def routerStep (s : RouterState) (slot : Int) : RouterStepResult :=
  if slot ∈ s.slots_seen then { state := s, warned := false, spawnedWrite := none }
  else if slot < s.max_slot_seen then
    { state :=
        { slots_seen := evictSmallest (btreeInsertSlot slot s.slots_seen).length
            (btreeInsertSlot slot s.slots_seen)
          max_slot_seen := s.max_slot_seen }
      warned := true
      spawnedWrite := some slot }
  else
    { state :=
        { slots_seen := evictSmallest (btreeInsertSlot slot s.slots_seen).length
            (btreeInsertSlot slot s.slots_seen)
          max_slot_seen := slot }
      warned := false
      spawnedWrite := some slot }

/- ===== Producer queries (producer_queries.rs) ===== -/

inductive QueryError where
  | noActiveProducer
  | impossibleCommitmentLevel
  | impossibleTimelineSelection
  | impossibleSlotOffset (slot : Int)
  | staleRevision (rev : Int)
  | minimumShardOffsetNotSet
  | mismatchShardCount
  | noProducerAvailable
deriving DecidableEq

/-- The `producer_lock` row columns read by `get_min_offset_for_producer`. -/
structure LockRow where
  revision : Int
  minimum_shard_offset : Option (List (Nat × Int × Int))
deriving DecidableEq

/-- One `producer_slot_seen` row as read by `get_slot_shard_offsets`. -/
structure SlotSeenRow where
  slot : Int
  revision : Int
  shard_offset_map : List (Nat × Int)
deriving DecidableEq

/-- producer_queries.rs `get_min_offset_for_producer`: staleness check
(`max_revision >= remote_revision` or `StaleRevision`), then the stored minimum offsets
(absent map is an error). -/
def get_min_offset_for_producer (lock : LockRow) (max_revision_opt : Option Int) :
    Except QueryError (List (Nat × Int × Int)) :=
  match max_revision_opt with
  | some r =>
    if r < lock.revision then Except.error (QueryError.staleRevision r)
    else
      match lock.minimum_shard_offset with
      | none => Except.error QueryError.minimumShardOffsetNotSet
      | some v => Except.ok v
  | none =>
    match lock.minimum_shard_offset with
    | none => Except.error QueryError.minimumShardOffsetNotSet
    | some v => Except.ok v

/-- The row with the greatest slot of a list (slots are distinct in the table, being its
clustering key, so which of several equal maxima is taken is immaterial). -/
def pickMaxSlot : List SlotSeenRow → Option SlotSeenRow
  | [] => none
  | r :: rs =>
    match pickMaxSlot rs with
    | none => some r
    | some b => if b.slot < r.slot then some r else some b

/-- `ORDER BY slot desc LIMIT 1` over `producer_slot_seen` restricted to
`min_slot <= slot <= desired_slot`: the row with the greatest slot in range. -/
def selectTopSlot (rows : List SlotSeenRow) (min_slot desired_slot : Int) :
    Option SlotSeenRow :=
  pickMaxSlot (rows.filter fun r => decide (min_slot ≤ r.slot ∧ r.slot ≤ desired_slot))

/-- producer_queries.rs `get_slot_shard_offsets`: greatest slot-seen row in range, the same
staleness check, each shard offset paired with the actual slot of the row. -/
def get_slot_shard_offsets (rows : List SlotSeenRow) (slot min_slot : Int)
    (max_revision_opt : Option Int) :
    Except QueryError (Option (List (Nat × Int × Int))) :=
  match selectTopSlot rows min_slot slot with
  | none => Except.ok none
  | some row =>
    match max_revision_opt with
    | some r =>
      if r < row.revision then Except.error (QueryError.staleRevision r)
      else Except.ok (some (row.shard_offset_map.map fun q => (q.1, q.2, row.slot)))
    | none => Except.ok (some (row.shard_offset_map.map fun q => (q.1, q.2, row.slot)))

/-- The `are_shard_offset_reachable` check of `compute_offset`'s `SlotApprox` arm: every
shard of the slot-seen record must be present in the minimum-offset map with a strictly
smaller offset. -/
def shardOffsetsReachable (minOffsets : List (Nat × Int × Int))
    (sc : List (Nat × Int × Int)) : Bool :=
  sc.all fun q =>
    match minOffsets.lookup q.1 with
    | some r => decide (r.1 < q.2.1)
    | none => false

/-- The database state `compute_offset` reads. -/
structure QueryDb where
  num_shards : Nat
  lockRow : LockRow
  slotSeen : List SlotSeenRow
  sinkDb : SinkDb
deriving DecidableEq

inductive SeekLocation where
  | latest
  | earliest
  | slotApprox (desired_slot : Int) (min_slot : Int)
deriving DecidableEq

/-- The `match seek_loc` block of `compute_offset` (producer_queries.rs lines 431-472). -/
def compute_offset_base (M : Int) (db : QueryDb) (seek : SeekLocation)
    (max_revision_opt : Option Int) :
    Except QueryError (List (Nat × Int × Int)) :=
  match seek with
  | .latest =>
    Except.ok (get_max_shard_offsets_for_producer M db.sinkDb db.num_shards)
  | .earliest => get_min_offset_for_producer db.lockRow max_revision_opt
  | .slotApprox desired_slot min_slot =>
    match get_min_offset_for_producer db.lockRow max_revision_opt with
    | Except.error e => Except.error e
    | Except.ok minOffsets =>
      match get_slot_shard_offsets db.slotSeen desired_slot min_slot max_revision_opt with
      | Except.error e => Except.error e
      | Except.ok none => Except.error (QueryError.impossibleSlotOffset desired_slot)
      | Except.ok (some sc) =>
        if shardOffsetsReachable minOffsets sc then Except.ok sc
        else Except.error (QueryError.impossibleSlotOffset desired_slot)

/-- The consumer next-read adjustment of `compute_offset` (lines 474-481). -/
def seekAdjustment : SeekLocation → Int
  | .earliest => -1
  | .slotApprox _ _ => -1
  | .latest => 0

/-- producer_queries.rs `compute_offset`: the seek-specific base map, the adjustment, and
the final `num_shards` cardinality check. -/
def compute_offset (M : Int) (db : QueryDb) (seek : SeekLocation)
    (max_revision_opt : Option Int) :
    Except QueryError (List (Nat × Int × Int)) :=
  match compute_offset_base M db seek max_revision_opt with
  | Except.error e => Except.error e
  | Except.ok base =>
    if (base.map fun q => (q.1, q.2.1 + seekAdjustment seek, q.2.2)).length = db.num_shards
    then Except.ok (base.map fun q => (q.1, q.2.1 + seekAdjustment seek, q.2.2))
    else Except.error QueryError.mismatchShardCount

/-- `producer_consumer_mapping_mv` counts: `.get(k).cloned().unwrap_or(0)`. -/
def consumerCount (counts : List (Nat × Int)) (p : Nat) : Int :=
  (counts.lookup p).getD 0

/-- Rust `Iterator::min_by_key`: the first element attaining the minimal key. -/
def minByKeyFirst (f : α → Int) : List α → Option α
  | [] => none
  | x :: xs =>
    match minByKeyFirst f xs with
    | none => some x
    | some y => if f x ≤ f y then some x else some y

/-- The intersection of the commitment-level producers with the living producers, as the
`filter_map(remove)`-into-`BTreeMap` of the code computes it (living is BTreeMap-ordered). -/
def eligibleProducers (living : List (Nat × Nat)) (withCl : List Nat) :
    List (Nat × Nat) :=
  living.filter fun q => withCl.contains q.1

def eligAfterSlot (elig : List (Nat × Nat)) (withSlot : List Nat) :
    List (Nat × Nat) :=
  elig.filter fun q => withSlot.contains q.1

/-- producer_queries.rs `get_producer_id_with_least_assigned_consumer`, with its database
and etcd reads abstracted to their results: `living` the living producers (BTreeMap order),
`withCl` the producers at the requested commitment level, `optSlot` the producers having a
slot in range together with `*slot_range.end()`, and `counts` the consumer counts. -/
def get_producer_id_with_least_assigned_consumer
    (living : List (Nat × Nat)) (withCl : List Nat)
    (optSlot : Option (List Nat × Int)) (counts : List (Nat × Int)) :
    Except QueryError (Nat × Nat) :=
  if living = [] then Except.error QueryError.noActiveProducer
  else if withCl = [] then Except.error QueryError.impossibleCommitmentLevel
  else if eligibleProducers living withCl = [] then
    Except.error QueryError.impossibleTimelineSelection
  else
    match optSlot with
    | some ws =>
      if eligAfterSlot (eligibleProducers living withCl) ws.1 = [] then
        Except.error (QueryError.impossibleSlotOffset ws.2)
      else
        match minByKeyFirst (fun q => consumerCount counts q.1)
            (eligAfterSlot (eligibleProducers living withCl) ws.1) with
        | some q => Except.ok q
        | none => Except.error QueryError.noProducerAvailable
    | none =>
      match minByKeyFirst (fun q => consumerCount counts q.1)
          (eligibleProducers living withCl) with
      | some q => Except.ok q
      | none => Except.error QueryError.noProducerAvailable

/-- The survivors after the optional slot-range filtering, the set `min_by_key` runs on. -/
def finalEligible (living : List (Nat × Nat)) (withCl : List Nat)
    (optSlot : Option (List Nat × Int)) : List (Nat × Nat) :=
  match optSlot with
  | some ws => eligAfterSlot (eligibleProducers living withCl) ws.1
  | none => eligibleProducers living withCl

/- ===== Concrete instances used by witnesses and counterexamples ===== -/

/-- Invariant of a running shard daemon: the next offset is non-negative, and the last
committed period, when not the initial `-1`, is `k - 1` for a period `k` whose boundary
offset `k * M` has already been passed. -/
def ShardInv (M : Int) (sh : Shard) : Prop :=
  0 ≤ sh.next_offset ∧
    (sh.last_committed_period = -1 ∨
      ∃ k : Int, 1 ≤ k ∧ sh.last_committed_period = k - 1 ∧ k * M < sh.next_offset)

def c1FreshDb : SinkDb := ⟨[], []⟩

def c1CommitDb : SinkDb := ⟨[(0, 4)], []⟩

def c2Shard : Shard := ⟨0, 0, 0, [], 15, 1000, 0, 5, -1⟩

def c2Events : List (EventIn × Nat) :=
  [(⟨11, 1⟩, 0), (⟨11, 1⟩, 0), (⟨12, 1⟩, 0), (⟨12, 1⟩, 0)]

def c3Shard : Shard := ⟨0, 0, 0, [], 15, 1000000, 0, 100, -1⟩

def c3Event : EventIn := ⟨5, 10⟩

def c3Staged : BlockchainEvent := ⟨0, 0, 0, 5, 10⟩

def c3Cmds : List (ShardCommand × Nat) :=
  [(ShardCommand.insertAccountUpdate c3Event, 0), (ShardCommand.shutdown, 1)]

def c6Db : QueryDb := ⟨1, ⟨5, some [(0, 10, 2)]⟩, [⟨7, 5, [(0, 20)]⟩], ⟨[], []⟩⟩

def c7Lock : LockRow := ⟨5, some [(0, 7, 1)]⟩

def c8Shard : Shard := ⟨0, 0, 0, [], 15, 10000, 0, 7, -1⟩

def c8Event : EventIn := ⟨0, 1⟩

def c9Db : QueryDb := ⟨1, ⟨3, some [(0, 5, 2)]⟩, [], ⟨[], []⟩⟩

def c10Shard : Shard := ⟨0, 0, 0, [], 15, 1000, 0, 5, -1⟩


/- ===== Helper lemmas: shard worker ===== -/

theorem boundaryFires_iff (M : Int) (sh : Shard) :
    boundaryFires M sh ↔
      (sh.next_offset.tmod M = 0 ∧ 0 < sh.next_offset ∧
        sh.last_committed_period ≠ sh.next_offset.tdiv M - 1) :=
  Iff.rfl

theorem boundary_char (o M p : Int) (ho : 0 ≤ o) (hM : 0 < M) :
    (o.tmod M = 0 ∧ 0 < o ∧ p = o.tdiv M - 1) ↔ (o = (p + 1) * M ∧ 0 < (p + 1) * M) := by
  rw [Int.tmod_eq_emod ho hM.le, Int.tdiv_eq_ediv ho hM.le]
  constructor
  · rintro ⟨h1, h2, h3⟩
    have h4 := Int.ediv_add_emod o M
    rw [h1, add_zero] at h4
    have h5 : (p + 1) * M = o := by
      have hp : p + 1 = o / M := by omega
      rw [hp, mul_comm]
      exact h4
    exact ⟨h5.symm, h5 ▸ h2⟩
  · rintro ⟨h1, h2⟩
    subst h1
    refine ⟨Int.mul_emod_left _ _, h2, ?_⟩
    rw [Int.mul_ediv_cancel _ (by omega : M ≠ 0)]
    omega

theorem boundary_decomp (o M : Int) (ho : 0 ≤ o) (hM : 0 < M)
    (h1 : o.tmod M = 0) (h2 : 0 < o) :
    1 ≤ o.tdiv M ∧ o.tdiv M * M = o := by
  have h3 := (boundary_char o M (o.tdiv M - 1) ho hM).1 ⟨h1, h2, rfl⟩
  have h4 : o = o.tdiv M * M := by
    have h5 := h3.1
    rw [sub_add_cancel] at h5
    exact h5
  refine ⟨?_, h4.symm⟩
  by_contra hcon
  push_neg at hcon
  have h5 : o.tdiv M ≤ 0 := by omega
  have h6 := mul_le_mul_of_nonneg_right h5 hM.le
  rw [zero_mul] at h6
  rw [← h4] at h6
  omega

theorem fires_of_boundary (M : Int) (hM : 0 < M) (sh : Shard) (hinv : ShardInv M sh)
    (h1 : sh.next_offset.tmod M = 0) (h2 : 0 < sh.next_offset) :
    sh.last_committed_period ≠ sh.next_offset.tdiv M - 1 := by
  obtain ⟨ho, hl⟩ := hinv
  obtain ⟨hk1, hk2⟩ := boundary_decomp sh.next_offset M ho hM h1 h2
  rcases hl with h | ⟨k, hk, he, hlt⟩
  · intro hcon
    rw [h] at hcon
    omega
  · intro hcon
    rw [he] at hcon
    have hkk : k = sh.next_offset.tdiv M := by omega
    subst hkk
    rw [hk2] at hlt
    exact lt_irrefl _ hlt

theorem shardStepInsert_next_offset (M : Int) (d : DaemonState) (e : EventIn) (now : Nat) :
    (shardStepInsert M d e now).state.shard.next_offset = d.shard.next_offset + 1 := rfl

theorem shardStepInsert_last (M : Int) (d : DaemonState) (e : EventIn) (now : Nat) :
    (shardStepInsert M d e now).state.shard.last_committed_period =
      if boundaryFires M d.shard then d.shard.next_offset.tdiv M - 1
      else d.shard.last_committed_period := rfl

theorem countCommit_append (p : Int) (l l' : List ShardAction) :
    countCommit p (l ++ l') = countCommit p l + countCommit p l' := by
  simp [countCommit, List.filter_append]

theorem countCommit_shardStepInsert (M : Int) (d : DaemonState) (e : EventIn) (now : Nat)
    (p : Int) :
    countCommit p (shardStepInsert M d e now).trace =
      if boundaryFires M d.shard ∧ d.shard.next_offset.tdiv M - 1 = p then 1 else 0 := by
  unfold shardStepInsert
  by_cases hf : boundaryFires M d.shard <;>
    by_cases hnf : (d.shard.max_buffer_capacity ≤ d.shard.buffer.length ∨
        d.shard.max_buffer_byte_size ≤ d.shard.curr_batch_byte_size + e.byteSize ∨
        0 < now - d.deadline) <;>
    by_cases hp : d.shard.next_offset.tdiv M - 1 = p <;>
    simp [hf, hnf, hp, countCommit, List.filter]

theorem shardInv_shardStepInsert (M : Int) (hM : 0 < M) (d : DaemonState) (e : EventIn)
    (now : Nat) (h : ShardInv M d.shard) :
    ShardInv M (shardStepInsert M d e now).state.shard := by
  obtain ⟨h0, hl⟩ := h
  constructor
  · rw [shardStepInsert_next_offset]
    omega
  · rw [shardStepInsert_last, shardStepInsert_next_offset]
    by_cases hf : boundaryFires M d.shard
    · right
      obtain ⟨h1, h2, _⟩ := (boundaryFires_iff M d.shard).1 hf
      obtain ⟨hk1, hk2⟩ := boundary_decomp d.shard.next_offset M h0 hM h1 h2
      refine ⟨d.shard.next_offset.tdiv M, hk1, by rw [if_pos hf], ?_⟩
      rw [hk2]
      omega
    · rcases hl with h | ⟨k, hk, he, hlt⟩
      · left
        rw [if_neg hf]
        exact h
      · right
        exact ⟨k, hk, by rw [if_neg hf]; exact he, hlt.trans (lt_add_one _)⟩

theorem shardRunInserts_nil (M : Int) (d : DaemonState) :
    shardRunInserts M d [] = ([], d) := rfl

theorem shardRunInserts_cons (M : Int) (d : DaemonState) (e : EventIn) (now : Nat)
    (rest : List (EventIn × Nat)) :
    shardRunInserts M d ((e, now) :: rest) =
      ((shardStepInsert M d e now).trace ++
          (shardRunInserts M (shardStepInsert M d e now).state rest).1,
        (shardRunInserts M (shardStepInsert M d e now).state rest).2) := rfl

theorem countCommit_shardRunInserts (M : Int) (hM : 0 < M) (p : Int)
    (evs : List (EventIn × Nat)) :
    ∀ d : DaemonState, ShardInv M d.shard →
      countCommit p (shardRunInserts M d evs).1 =
        if 0 < (p + 1) * M ∧ d.shard.next_offset ≤ (p + 1) * M ∧
            (p + 1) * M < d.shard.next_offset + evs.length then 1 else 0 := by
  induction evs with
  | nil =>
    intro d _
    rw [shardRunInserts_nil]
    have h0 : countCommit p [] = 0 := rfl
    rw [h0]
    generalize (p + 1) * M = x
    rw [if_neg]
    rintro ⟨hx, hy, hz⟩
    simp only [List.length_nil] at hz
    omega
  | cons ev rest ih =>
    intro d hd
    obtain ⟨e, now⟩ := ev
    rw [shardRunInserts_cons]
    have hd' := shardInv_shardStepInsert M hM d e now hd
    rw [countCommit_append, countCommit_shardStepInsert, ih _ hd',
      shardStepInsert_next_offset]
    have hchar : (boundaryFires M d.shard ∧ d.shard.next_offset.tdiv M - 1 = p) ↔
        (d.shard.next_offset = (p + 1) * M ∧ 0 < (p + 1) * M) := by
      constructor
      · rintro ⟨hf, h4⟩
        obtain ⟨h1, h2, _⟩ := (boundaryFires_iff M d.shard).1 hf
        exact (boundary_char _ M p hd.1 hM).1 ⟨h1, h2, by omega⟩
      · rintro ⟨h1, h2⟩
        obtain ⟨g1, g2, g3⟩ := (boundary_char d.shard.next_offset M p hd.1 hM).2 ⟨h1, h2⟩
        exact ⟨(boundaryFires_iff M d.shard).2
          ⟨g1, g2, fires_of_boundary M hM d.shard hd g1 g2⟩, by omega⟩
    rw [if_congr hchar rfl rfl]
    generalize (p + 1) * M = x
    simp only [List.length_cons]
    split_ifs <;> push_cast at * <;> omega

/- ===== Helper lemmas: router slot set ===== -/

theorem mem_btreeInsertSlot (x a : Int) : ∀ l : List Int,
    x ∈ btreeInsertSlot a l ↔ x = a ∨ x ∈ l := by
  intro l
  induction l with
  | nil => simp [btreeInsertSlot]
  | cons y ys ih =>
    unfold btreeInsertSlot
    split_ifs with h1 h2
    · simp [List.mem_cons]
    · subst h2
      simp [List.mem_cons]
    · simp only [List.mem_cons, ih]
      tauto

theorem btreeInsertSlot_length_of_not_mem (a : Int) : ∀ l : List Int, a ∉ l →
    (btreeInsertSlot a l).length = l.length + 1 := by
  intro l
  induction l with
  | nil => intro _; rfl
  | cons y ys ih =>
    intro h
    have hy : a ≠ y := fun hc => h (hc ▸ List.mem_cons_self _ _)
    have hys : a ∉ ys := fun hc => h (List.mem_cons_of_mem _ hc)
    unfold btreeInsertSlot
    split_ifs with h1
    · simp
    · simp [ih hys]

theorem btreeInsertSlot_pairwise (a : Int) : ∀ l : List Int, l.Pairwise (· < ·) →
    (btreeInsertSlot a l).Pairwise (· < ·) := by
  intro l
  induction l with
  | nil => intro _; simp [btreeInsertSlot]
  | cons y ys ih =>
    intro h
    rw [List.pairwise_cons] at h
    unfold btreeInsertSlot
    split_ifs with h1 h2
    · rw [List.pairwise_cons]
      refine ⟨?_, List.pairwise_cons.2 h⟩
      intro z hz
      rcases List.mem_cons.1 hz with hz | hz
      · exact hz ▸ h1
      · exact h1.trans (h.1 z hz)
    · exact List.pairwise_cons.2 h
    · rw [List.pairwise_cons]
      refine ⟨?_, ih h.2⟩
      intro z hz
      rcases (mem_btreeInsertSlot z a ys).1 hz with hz | hz
      · subst hz
        omega
      · exact h.1 z hz

theorem evictSmallest_of_lt (n : Nat) (l : List Int) (h : l.length < SLOT_SEEN_RETENTION) :
    evictSmallest n l = l := by
  cases n with
  | zero => rfl
  | succ m =>
    unfold evictSmallest
    rw [if_neg (by omega)]

theorem evictSmallest_length_lt (n : Nat) : ∀ l : List Int, l.length ≤ n →
    (evictSmallest n l).length < SLOT_SEEN_RETENTION := by
  induction n with
  | zero =>
    intro l h
    have : l = [] := List.length_eq_zero.1 (by omega)
    subst this
    simp [evictSmallest, SLOT_SEEN_RETENTION]
  | succ m ih =>
    intro l h
    unfold evictSmallest
    split_ifs with h1
    · refine ih l.tail ?_
      have := List.length_tail l
      have hR : 0 < SLOT_SEEN_RETENTION := by norm_num [SLOT_SEEN_RETENTION]
      omega
    · omega

theorem evictSmallest_at_retention (l : List Int) (h : l.length = SLOT_SEEN_RETENTION) :
    evictSmallest l.length l = l.tail := by
  rw [h]
  show evictSmallest (8999 + 1) l = l.tail
  unfold evictSmallest
  rw [if_pos h.ge]
  refine evictSmallest_of_lt _ _ ?_
  have := List.length_tail l
  rw [h] at this
  simp [SLOT_SEEN_RETENTION] at this ⊢
  omega

theorem routerStep_spawned (s : RouterState) (slot : Int) :
    (routerStep s slot).spawnedWrite = some slot ↔ slot ∉ s.slots_seen := by
  unfold routerStep
  by_cases hm : slot ∈ s.slots_seen
  · simp [hm]
  · split_ifs with h1 <;> simp [hm]

/- ===== Helper lemmas: producer queries ===== -/

theorem minByKeyFirst_eq_none_iff {α : Type} (f : α → Int) (l : List α) :
    minByKeyFirst f l = none ↔ l = [] := by
  cases l with
  | nil => simp [minByKeyFirst]
  | cons x xs =>
    simp only [minByKeyFirst]
    cases minByKeyFirst f xs with
    | none => simp
    | some y =>
      dsimp only
      split_ifs <;> simp

theorem minByKeyFirst_mem {α : Type} (f : α → Int) :
    ∀ (l : List α) (p : α), minByKeyFirst f l = some p → p ∈ l := by
  intro l
  induction l with
  | nil => intro p h; simp [minByKeyFirst] at h
  | cons x xs ih =>
    intro p h
    simp only [minByKeyFirst] at h
    cases hx : minByKeyFirst f xs with
    | none =>
      simp only [hx] at h
      cases h
      exact List.mem_cons_self _ _
    | some y =>
      simp only [hx] at h
      split_ifs at h
      · cases h
        exact List.mem_cons_self _ _
      · cases h
        exact List.mem_cons_of_mem _ (ih _ hx)

theorem minByKeyFirst_le {α : Type} (f : α → Int) :
    ∀ (l : List α) (p : α), minByKeyFirst f l = some p → ∀ q ∈ l, f p ≤ f q := by
  intro l
  induction l with
  | nil => intro p h; simp [minByKeyFirst] at h
  | cons x xs ih =>
    intro p h q hq
    simp only [minByKeyFirst] at h
    cases hx : minByKeyFirst f xs with
    | none =>
      have hnil : xs = [] := (minByKeyFirst_eq_none_iff f xs).1 hx
      simp only [hx] at h
      cases h
      subst hnil
      rcases List.mem_cons.1 hq with hq | hq
      · exact hq ▸ le_refl _
      · simp at hq
    | some y =>
      simp only [hx] at h
      split_ifs at h with hf
      · cases h
        rcases List.mem_cons.1 hq with hq | hq
        · exact hq ▸ le_refl _
        · exact hf.trans (ih _ hx q hq)
      · cases h
        rcases List.mem_cons.1 hq with hq | hq
        · subst hq
          omega
        · exact ih _ hx q hq

theorem minByKeyFirst_tie {α : Type} (f : α → Int) (g : α → Nat) :
    ∀ (l : List α) (p : α), l.Pairwise (fun a b => g a < g b) →
      minByKeyFirst f l = some p → ∀ q ∈ l, f q = f p → g p ≤ g q := by
  intro l
  induction l with
  | nil => intro p _ h; simp [minByKeyFirst] at h
  | cons x xs ih =>
    intro p hpw h q hq hfq
    rw [List.pairwise_cons] at hpw
    simp only [minByKeyFirst] at h
    cases hx : minByKeyFirst f xs with
    | none =>
      have hnil : xs = [] := (minByKeyFirst_eq_none_iff f xs).1 hx
      simp only [hx] at h
      cases h
      subst hnil
      rcases List.mem_cons.1 hq with hq | hq
      · exact hq ▸ le_refl _
      · simp at hq
    | some y =>
      simp only [hx] at h
      split_ifs at h with hf
      · cases h
        rcases List.mem_cons.1 hq with hq | hq
        · exact hq ▸ le_refl _
        · exact (hpw.1 q hq).le
      · cases h
        rcases List.mem_cons.1 hq with hq | hq
        · subst hq
          have := minByKeyFirst_le f xs p hx
          exfalso
          omega
      
        · exact ih p hpw.2 hx q hq hfq

theorem pickMaxSlot_eq_none_iff (l : List SlotSeenRow) : pickMaxSlot l = none ↔ l = [] := by
  cases l with
  | nil => simp [pickMaxSlot]
  | cons r rs =>
    simp only [pickMaxSlot]
    cases pickMaxSlot rs with
    | none => simp
    | some b =>
      dsimp only
      split_ifs <;> simp

theorem pickMaxSlot_mem : ∀ (l : List SlotSeenRow) (r : SlotSeenRow),
    pickMaxSlot l = some r → r ∈ l := by
  intro l
  induction l with
  | nil => intro r h; simp [pickMaxSlot] at h
  | cons x xs ih =>
    intro r h
    simp only [pickMaxSlot] at h
    cases hx : pickMaxSlot xs with
    | none =>
      simp only [hx] at h
      cases h
      exact List.mem_cons_self _ _
    | some b =>
      simp only [hx] at h
      split_ifs at h
      · cases h
        exact List.mem_cons_self _ _
      · cases h
        exact List.mem_cons_of_mem _ (ih _ hx)

theorem pickMaxSlot_le : ∀ (l : List SlotSeenRow) (r : SlotSeenRow),
    pickMaxSlot l = some r → ∀ x ∈ l, x.slot ≤ r.slot := by
  intro l
  induction l with
  | nil => intro r h; simp [pickMaxSlot] at h
  | cons y ys ih =>
    intro r h x hx
    simp only [pickMaxSlot] at h
    cases hy : pickMaxSlot ys with
    | none =>
      have hnil : ys = [] := (pickMaxSlot_eq_none_iff ys).1 hy
      simp only [hy] at h
      cases h
      subst hnil
      rcases List.mem_cons.1 hx with hx | hx
      · exact hx ▸ le_refl _
      · simp at hx
    | some b =>
      simp only [hy] at h
      split_ifs at h with hlt
      · cases h
        rcases List.mem_cons.1 hx with hx | hx
        · exact hx ▸ le_refl _
        · exact (ih _ hy x hx).trans hlt.le
      · cases h
        rcases List.mem_cons.1 hx with hx | hx
        · subst hx
          omega
        · exact ih _ hy x hx

theorem selectTopSlot_spec (rows : List SlotSeenRow) (lo hi : Int) (row : SlotSeenRow)
    (h : selectTopSlot rows lo hi = some row) :
    row ∈ rows ∧ lo ≤ row.slot ∧ row.slot ≤ hi ∧
      ∀ x ∈ rows, lo ≤ x.slot → x.slot ≤ hi → x.slot ≤ row.slot := by
  unfold selectTopSlot at h
  have hmem := pickMaxSlot_mem _ _ h
  rw [List.mem_filter] at hmem
  have hcond := of_decide_eq_true hmem.2
  refine ⟨hmem.1, hcond.1, hcond.2, ?_⟩
  intro x hx h1 h2
  refine pickMaxSlot_le _ _ h x ?_
  rw [List.mem_filter]
  exact ⟨hx, decide_eq_true ⟨h1, h2⟩⟩

/- ===== Helper lemmas: step projections ===== -/

theorem shardStep_insertAccountUpdate (M : Int) (d : DaemonState) (e : EventIn) (now : Nat) :
    shardStep M d (ShardCommand.insertAccountUpdate e) now = shardStepInsert M d e now := rfl

theorem flush_cond_iff (a b : Nat) : (0 < a - b) ↔ (b < a) := by omega

theorem traceHasFlush_shardStepInsert (M : Int) (d : DaemonState) (e : EventIn) (now : Nat) :
    traceHasFlush (shardStepInsert M d e now).trace = true ↔
      (d.shard.max_buffer_capacity ≤ d.shard.buffer.length ∨
        d.shard.max_buffer_byte_size ≤ d.shard.curr_batch_byte_size + e.byteSize ∨
        d.deadline < now) := by
  unfold shardStepInsert traceHasFlush
  simp only [flush_cond_iff]
  by_cases hf : boundaryFires M d.shard <;>
    by_cases hnf : (d.shard.max_buffer_capacity ≤ d.shard.buffer.length ∨
      d.shard.max_buffer_byte_size ≤ d.shard.curr_batch_byte_size + e.byteSize ∨
      d.deadline < now) <;>
    simp [hf, hnf]

theorem shardStepInsert_deadline (M : Int) (d : DaemonState) (e : EventIn) (now : Nat) :
    (shardStepInsert M d e now).state.deadline =
      if (d.shard.max_buffer_capacity ≤ d.shard.buffer.length ∨
          d.shard.max_buffer_byte_size ≤ d.shard.curr_batch_byte_size + e.byteSize ∨
          0 < now - d.deadline)
      then now + d.shard.buffer_linger else d.deadline := rfl

theorem routerStep_slots_seen (s : RouterState) (slot : Int) (hm : slot ∉ s.slots_seen) :
    (routerStep s slot).state.slots_seen =
      evictSmallest (btreeInsertSlot slot s.slots_seen).length
        (btreeInsertSlot slot s.slots_seen) := by
  unfold routerStep
  rw [if_neg hm]
  split_ifs <;> rfl

/- ===== Claim theorems ===== -/

/-- Claim C1 (code bug): the Offset Recovery run at sink startup,
`get_max_shard_offsets_for_producer_v2` followed by `last_offset + 1` in `ScyllaSink::new`,
falls back to max offset `0` on an empty log partition (`.unwrap_or(0)`), not to
`current_period * SHARD_OFFSET_MODULO - 1` as the claim states, so a fresh start recovers
`next_offset = 1` for every shard instead of `0`; the sibling v1 variant
`get_max_shard_offsets_for_producer`, whose fallback the claim describes, yields `-1` on the
fresh database and `49` after a period-4 commit with an empty current partition (modulo 10),
where v2 still yields `0`. -/
theorem c1_offset_recovery_fallback_bug :
    get_max_shard_offsets_for_producer_v2 c1FreshDb 2 = [(0, 0), (1, 0)] ∧
    scyllaSinkNextOffsets c1FreshDb 2 = [(0, 1), (1, 1)] ∧
    get_max_shard_offsets_for_producer 10 c1FreshDb 2 =
      [(0, -1, UNDEFINED_SLOT), (1, -1, UNDEFINED_SLOT)] ∧
    get_max_shard_offsets_for_producer_v2 c1CommitDb 1 = [(0, 0)] ∧
    scyllaSinkNextOffsets c1CommitDb 1 = [(0, 1)] ∧
    get_max_shard_offsets_for_producer 10 c1CommitDb 1 = [(0, 49, UNDEFINED_SLOT)] := by
  decide

/-- Claim C2: whenever the worker is about to assign an offset `o` with
`o % M = 0`, `o > 0` and `last_committed_period ≠ o/M - 1`, it writes
`PeriodCommit(producer_id, shard_id, o/M - 1)` first in the iteration's trace — before the
event at offset `o` is staged — and sets `last_committed_period` to `o/M - 1`; and over any
insert run from a freshly constructed shard (`last_committed_period = -1`,
`next_offset = n₀ ≥ 0`) each period boundary crossed is committed exactly once. -/
theorem c2_period_boundary_commit (M : Int) (hM : 0 < M) :
    (∀ (d : DaemonState) (e : EventIn) (now : Nat),
      d.shard.next_offset.tmod M = 0 → 0 < d.shard.next_offset →
      d.shard.last_committed_period ≠ d.shard.next_offset.tdiv M - 1 →
      ∃ rest,
        (shardStep M d (ShardCommand.insertAccountUpdate e) now).trace =
          ShardAction.periodCommit d.shard.producerId d.shard.shardId
            (d.shard.next_offset.tdiv M - 1) :: rest ∧
        (∃ ev : BlockchainEvent, ev.offset = d.shard.next_offset ∧
          ShardAction.stage ev ∈ rest) ∧
        countCommit (d.shard.next_offset.tdiv M - 1)
          (shardStep M d (ShardCommand.insertAccountUpdate e) now).trace = 1 ∧
        (shardStep M d
            (ShardCommand.insertAccountUpdate e) now).state.shard.last_committed_period =
          d.shard.next_offset.tdiv M - 1) ∧
    (∀ sh : Shard, sh.last_committed_period = -1 → 0 ≤ sh.next_offset →
      ∀ (dl : Nat) (evs : List (EventIn × Nat)) (p : Int),
        countCommit p (shardRunInserts M ⟨sh, dl⟩ evs).1 =
          if 0 < (p + 1) * M ∧ sh.next_offset ≤ (p + 1) * M ∧
              (p + 1) * M < sh.next_offset + evs.length then 1 else 0) := by
  constructor
  · intro d e now h1 h2 h3
    have hf : boundaryFires M d.shard := (boundaryFires_iff M d.shard).2 ⟨h1, h2, h3⟩
    rw [shardStep_insertAccountUpdate]
    refine ⟨(if (d.shard.max_buffer_capacity ≤ d.shard.buffer.length ∨
          d.shard.max_buffer_byte_size ≤ d.shard.curr_batch_byte_size + e.byteSize ∨
          0 < now - d.deadline) then [ShardAction.flushBatch d.shard.buffer] else []) ++
        [ShardAction.stage
          ⟨d.shard.shardId, d.shard.producerId, d.shard.next_offset, e.slot, e.byteSize⟩,
        ShardAction.publish d.shard.next_offset], ?_, ?_, ?_, ?_⟩
    · show (shardStepInsert M d e now).trace = _
      dsimp only [shardStepInsert]
      rw [if_pos hf]
      simp [List.append_assoc]
    · exact ⟨⟨d.shard.shardId, d.shard.producerId, d.shard.next_offset, e.slot, e.byteSize⟩,
        rfl, by simp⟩
    · rw [countCommit_shardStepInsert, if_pos ⟨hf, rfl⟩]
    · rw [shardStepInsert_last, if_pos hf]
  · intro sh hlast hnext dl evs p
    exact countCommit_shardRunInserts M hM p evs ⟨sh, dl⟩ ⟨hnext, Or.inl hlast⟩

theorem c2_period_boundary_commit_witness :
    countCommit 0 (shardRunInserts 3 ⟨c2Shard, 100⟩ c2Events).1 = 1 := by
  have h := (c2_period_boundary_commit 3 (by decide)).2 c2Shard rfl (by decide) 100 c2Events 0
  rw [h]
  decide

/-- Claim C10: `Shard::new` panics exactly when the supplied `next_offset` is negative;
for `next_offset ≥ 0` it succeeds and yields a shard with an empty buffer, zero
`curr_batch_byte_size`, `last_committed_period = -1`, and the supplied parameters. -/
theorem c10_shard_new (sid pid : Nat) (next_offset : Int) (cap bytes linger : Nat) :
    (Shard.new sid pid next_offset cap bytes linger = none ↔ next_offset < 0) ∧
    (0 ≤ next_offset → ∃ sh, Shard.new sid pid next_offset cap bytes linger = some sh) ∧
    (∀ sh, Shard.new sid pid next_offset cap bytes linger = some sh →
      sh.buffer = [] ∧ sh.curr_batch_byte_size = 0 ∧ sh.last_committed_period = -1 ∧
      sh.next_offset = next_offset ∧ sh.shardId = sid ∧ sh.producerId = pid ∧
      sh.max_buffer_capacity = cap ∧ sh.max_buffer_byte_size = bytes ∧
      sh.buffer_linger = linger) := by
  unfold Shard.new
  split_ifs with h
  · refine ⟨by simp [h], fun h2 => absurd h (by omega), fun sh hsh => hsh.elim⟩
  · refine ⟨by simp [h], fun _ => ⟨_, rfl⟩, ?_⟩
    intro sh hsh
    injection hsh with h2
    subst h2
    exact ⟨rfl, rfl, rfl, rfl, rfl, rfl, rfl, rfl, rfl⟩

theorem c10_shard_new_witness :
    c10Shard.buffer = [] ∧ c10Shard.curr_batch_byte_size = 0 ∧
      c10Shard.last_committed_period = -1 ∧ c10Shard.next_offset = 0 ∧
      c10Shard.shardId = 0 ∧ c10Shard.producerId = 0 ∧ c10Shard.max_buffer_capacity = 15 ∧
      c10Shard.max_buffer_byte_size = 1000 ∧ c10Shard.buffer_linger = 5 :=
  (c10_shard_new 0 0 0 15 1000 5).2.2 c10Shard (by decide)

/-- Claim C3 (counterexample): offsets are published on the watch channel before — not
after — the database batch containing their event completes: in a run that inserts one
event and then shuts down, `publish 0` precedes the flush of the batch holding the
offset-0 event, so the claimed publish-only-after-flush discipline is violated. -/
theorem c3_counterexample :
    (shardRun 10 ⟨c3Shard, 100⟩ c3Cmds).1 =
      [ShardAction.stage c3Staged, ShardAction.publish 0,
        ShardAction.flushBatch [c3Staged]] ∧
    publishedOnlyAfterFlush [] (shardRun 10 ⟨c3Shard, 100⟩ c3Cmds).1 = false := by
  decide

/-- Claim C3 (amended): the watch channel carries the offset of the latest staged event:
in every insert iteration the worker publishes the assigned offset immediately after
appending the event to the buffer and batch (the iteration's trace ends with the staging
of the event at `next_offset` followed by `publish next_offset`), which is before the batch
containing that event is flushed; transactions and account updates behave alike. -/
theorem c3_watch_publishes_staged_offset (M : Int) (d : DaemonState) (e : EventIn)
    (now : Nat) :
    shardStep M d (ShardCommand.insertTransaction e) now =
      shardStep M d (ShardCommand.insertAccountUpdate e) now ∧
    ∃ pre ev,
      (shardStep M d (ShardCommand.insertAccountUpdate e) now).trace =
        pre ++ [ShardAction.stage ev, ShardAction.publish d.shard.next_offset] ∧
      ev.offset = d.shard.next_offset ∧
      (shardStep M d (ShardCommand.insertAccountUpdate e) now).state.shard.next_offset =
        d.shard.next_offset + 1 := by
  refine ⟨rfl, (if boundaryFires M d.shard
      then [ShardAction.periodCommit d.shard.producerId d.shard.shardId
        (d.shard.next_offset.tdiv M - 1)] else []) ++
    (if (d.shard.max_buffer_capacity ≤ d.shard.buffer.length ∨
        d.shard.max_buffer_byte_size ≤ d.shard.curr_batch_byte_size + e.byteSize ∨
        0 < now - d.deadline) then [ShardAction.flushBatch d.shard.buffer] else []),
    ⟨d.shard.shardId, d.shard.producerId, d.shard.next_offset, e.slot, e.byteSize⟩,
    rfl, rfl, rfl⟩

/-- Claim C8 (counterexample): at the instant the buffering deadline is exactly reached
(`now = buffering_deadline`) and neither the length nor the byte trigger holds, the claimed
flush condition — the current time has reached the deadline — is true, yet the worker does
not flush: the code flushes only when `elapsed() > 0`, strictly after the deadline. -/
theorem c8_counterexample :
    ¬((traceHasFlush (shardStep 10 ⟨c8Shard, 5⟩
          (ShardCommand.insertAccountUpdate c8Event) 5).trace = true) ↔
      (c8Shard.max_buffer_capacity ≤ c8Shard.buffer.length ∨
        c8Shard.max_buffer_byte_size ≤ c8Shard.curr_batch_byte_size + c8Event.byteSize ∨
        (⟨c8Shard, 5⟩ : DaemonState).deadline ≤ 5)) := by
  decide

/-- Claim C8 (amended): before staging an event the worker flushes exactly when the buffer
has reached `max_buffer_capacity`, or `curr_batch_byte_size` plus the event's byte size has
reached `max_buffer_byte_size`, or the current time is strictly past the buffering deadline
(`elapsed() > 0`); whenever such a flush happens the deadline is reset to `now + linger`,
and otherwise it is unchanged; and `ScyllaSink::new` builds every shard with
`max_buffer_byte_size = batch_size_kb_limit * 1024` (and the default capacity 15 and the
configured linger). -/
theorem c8_flush_trigger (M : Int) (d : DaemonState) (e : EventIn) (now : Nat) :
    (traceHasFlush (shardStep M d (ShardCommand.insertAccountUpdate e) now).trace = true ↔
      (d.shard.max_buffer_capacity ≤ d.shard.buffer.length ∨
        d.shard.max_buffer_byte_size ≤ d.shard.curr_batch_byte_size + e.byteSize ∨
        d.deadline < now)) ∧
    (traceHasFlush (shardStep M d (ShardCommand.insertAccountUpdate e) now).trace = true →
      (shardStep M d (ShardCommand.insertAccountUpdate e) now).state.deadline =
        now + d.shard.buffer_linger) ∧
    (traceHasFlush (shardStep M d (ShardCommand.insertAccountUpdate e) now).trace = false →
      (shardStep M d (ShardCommand.insertAccountUpdate e) now).state.deadline =
        d.deadline) ∧
    (∀ (cfg : ScyllaSinkConfig) (pid sid : Nat) (off : Int) (sh : Shard),
      scyllaSinkShard cfg pid sid off = some sh →
      sh.max_buffer_byte_size = cfg.batch_size_kb_limit * 1024 ∧
      sh.max_buffer_capacity = DEFAULT_SHARD_MAX_BUFFER_CAPACITY ∧
      sh.buffer_linger = cfg.linger) := by
  rw [shardStep_insertAccountUpdate]
  refine ⟨traceHasFlush_shardStepInsert M d e now, ?_, ?_, ?_⟩
  · intro h
    rw [traceHasFlush_shardStepInsert M d e now] at h
    rw [shardStepInsert_deadline, if_pos (by omega)]
  · intro h
    have h2 : ¬(d.shard.max_buffer_capacity ≤ d.shard.buffer.length ∨
        d.shard.max_buffer_byte_size ≤ d.shard.curr_batch_byte_size + e.byteSize ∨
        d.deadline < now) := by
      intro hc
      rw [(traceHasFlush_shardStepInsert M d e now).2 hc] at h
      exact Bool.noConfusion h
    rw [shardStepInsert_deadline, if_neg (by omega)]
  · intro cfg pid sid off sh h
    unfold scyllaSinkShard Shard.new at h
    split_ifs at h
    injection h with h2
    subst h2
    exact ⟨rfl, rfl, rfl⟩

theorem c8_flush_trigger_witness :
    traceHasFlush (shardStep 10 ⟨c8Shard, 5⟩
        (ShardCommand.insertAccountUpdate c8Event) 6).trace = true :=
  (c8_flush_trigger 10 ⟨c8Shard, 5⟩ c8Event 6).1.mpr (by decide)

/-- Claim C4: the router spawns a `ProducerSlotSeen` write exactly when the arriving slot
is not currently in `slots_seen`; a late-arriving new slot (smaller than `max_slot_seen`)
warns, leaves `max_slot_seen` unchanged (which never decreases), and is still recorded;
`slots_seen` stays bounded by `SLOT_SEEN_RETENTION = 9000` and on reaching the bound the
smallest slot is evicted, so a slot no longer in the set — such as an evicted one — is
recorded afresh when observed again. -/
theorem c4_router_slot_tracking (s : RouterState) (slot : Int)
    (hcard : s.slots_seen.length ≤ SLOT_SEEN_RETENTION)
    (hsort : s.slots_seen.Pairwise (· < ·)) :
    ((routerStep s slot).spawnedWrite = some slot ↔ slot ∉ s.slots_seen) ∧
    ((routerStep s slot).warned = true ↔ slot ∉ s.slots_seen ∧ slot < s.max_slot_seen) ∧
    s.max_slot_seen ≤ (routerStep s slot).state.max_slot_seen ∧
    (slot < s.max_slot_seen → (routerStep s slot).state.max_slot_seen = s.max_slot_seen) ∧
    (routerStep s slot).state.slots_seen.length ≤ SLOT_SEEN_RETENTION ∧
    (slot ∉ s.slots_seen →
      (btreeInsertSlot slot s.slots_seen).length = SLOT_SEEN_RETENTION →
      ∃ mn rest2, btreeInsertSlot slot s.slots_seen = mn :: rest2 ∧
        (routerStep s slot).state.slots_seen = rest2 ∧ ∀ x ∈ rest2, mn < x) ∧
    (∀ z : Int, z ∉ (routerStep s slot).state.slots_seen →
      (routerStep (routerStep s slot).state z).spawnedWrite = some z) := by
  refine ⟨routerStep_spawned s slot, ?_, ?_, ?_, ?_, ?_, ?_⟩
  · unfold routerStep
    by_cases hm : slot ∈ s.slots_seen
    · simp [hm]
    · split_ifs with hlt <;> simp [hm, hlt]
  · unfold routerStep
    by_cases hm : slot ∈ s.slots_seen
    · simp [hm]
    · split_ifs with hlt
      · simp
      · simp
        omega
  · intro hlt
    unfold routerStep
    by_cases hm : slot ∈ s.slots_seen
    · simp [hm]
    · simp [hm, hlt]
  · by_cases hm : slot ∈ s.slots_seen
    · unfold routerStep
      simpa [hm] using hcard
    · rw [routerStep_slots_seen s slot hm]
      have h1 := evictSmallest_length_lt (btreeInsertSlot slot s.slots_seen).length
        (btreeInsertSlot slot s.slots_seen) le_rfl
      omega
  · intro hm hlen
    have hpair := btreeInsertSlot_pairwise slot s.slots_seen hsort
    obtain ⟨mn, rest2, hcons⟩ :
        ∃ mn rest2, btreeInsertSlot slot s.slots_seen = mn :: rest2 := by
      cases hins : btreeInsertSlot slot s.slots_seen with
      | nil =>
        rw [hins] at hlen
        simp [SLOT_SEEN_RETENTION] at hlen
      | cons a b => exact ⟨a, b, rfl⟩
    refine ⟨mn, rest2, hcons, ?_, ?_⟩
    · rw [routerStep_slots_seen s slot hm, evictSmallest_at_retention _ hlen, hcons]
      rfl
    · intro x hx
      rw [hcons, List.pairwise_cons] at hpair
      exact hpair.1 x hx
  · intro z hz
    exact (routerStep_spawned _ z).2 hz

theorem c4_router_slot_tracking_witness :
    (routerStep ⟨[3], 3⟩ 2).spawnedWrite = some 2 ∧ (routerStep ⟨[3], 3⟩ 2).warned = true :=
  ⟨(c4_router_slot_tracking ⟨[3], 3⟩ 2 (by decide) (by decide)).1.mpr (by decide),
    (c4_router_slot_tracking ⟨[3], 3⟩ 2 (by decide) (by decide)).2.1.mpr (by decide)⟩

/-- Claim C5: `get_producer_id_with_least_assigned_consumer` fails with `NoActiveProducer`
when no producer is living; otherwise with `ImpossibleCommitmentLevel` when no producer has
the requested commitment level; otherwise with `ImpossibleTimelineSelection` when the two
sets do not intersect; otherwise, with a slot range supplied, with
`ImpossibleSlotOffset(range.end)` when no eligible producer covers the range; and otherwise
returns the eligible producer of minimum consumer count (producers absent from the count
table counting as 0), ties broken by the smallest `ProducerId`. -/
theorem c5_least_assigned_consumer (living : List (Nat × Nat)) (withCl : List Nat)
    (optSlot : Option (List Nat × Int)) (counts : List (Nat × Int))
    (hsorted : living.Pairwise fun a b => a.1 < b.1) :
    (living = [] →
      get_producer_id_with_least_assigned_consumer living withCl optSlot counts =
        Except.error QueryError.noActiveProducer) ∧
    (living ≠ [] → withCl = [] →
      get_producer_id_with_least_assigned_consumer living withCl optSlot counts =
        Except.error QueryError.impossibleCommitmentLevel) ∧
    (living ≠ [] → withCl ≠ [] → eligibleProducers living withCl = [] →
      get_producer_id_with_least_assigned_consumer living withCl optSlot counts =
        Except.error QueryError.impossibleTimelineSelection) ∧
    (∀ ws rangeEnd, optSlot = some (ws, rangeEnd) → living ≠ [] → withCl ≠ [] →
      eligibleProducers living withCl ≠ [] →
      eligAfterSlot (eligibleProducers living withCl) ws = [] →
      get_producer_id_with_least_assigned_consumer living withCl optSlot counts =
        Except.error (QueryError.impossibleSlotOffset rangeEnd)) ∧
    (living ≠ [] → withCl ≠ [] → eligibleProducers living withCl ≠ [] →
      finalEligible living withCl optSlot ≠ [] →
      ∃ q, get_producer_id_with_least_assigned_consumer living withCl optSlot counts =
          Except.ok q ∧
        q ∈ finalEligible living withCl optSlot ∧
        (∀ r ∈ finalEligible living withCl optSlot,
          consumerCount counts q.1 ≤ consumerCount counts r.1) ∧
        (∀ r ∈ finalEligible living withCl optSlot,
          consumerCount counts r.1 = consumerCount counts q.1 → q.1 ≤ r.1)) := by
  refine ⟨?_, ?_, ?_, ?_, ?_⟩
  · intro h
    simp [get_producer_id_with_least_assigned_consumer, h]
  · intro h1 h2
    simp [get_producer_id_with_least_assigned_consumer, h1, h2]
  · intro h1 h2 h3
    simp [get_producer_id_with_least_assigned_consumer, h1, h2, h3]
  · intro ws rangeEnd ho h1 h2 h3 h4
    subst ho
    simp [get_producer_id_with_least_assigned_consumer, h1, h2, h3, h4]
  · intro h1 h2 h3 h4
    have hpw : (finalEligible living withCl optSlot).Pairwise fun a b => a.1 < b.1 := by
      unfold finalEligible eligAfterSlot eligibleProducers
      cases optSlot with
      | none => exact List.Pairwise.sublist (List.filter_sublist _) hsorted
      | some ws =>
        exact List.Pairwise.sublist
          ((List.filter_sublist _).trans (List.filter_sublist _)) hsorted
    obtain ⟨q, hq⟩ : ∃ q, minByKeyFirst (fun q => consumerCount counts q.1)
        (finalEligible living withCl optSlot) = some q := by
      cases hmin : minByKeyFirst (fun q => consumerCount counts q.1)
          (finalEligible living withCl optSlot) with
      | none => exact absurd ((minByKeyFirst_eq_none_iff _ _).1 hmin) h4
      | some q => exact ⟨q, rfl⟩
    refine ⟨q, ?_, minByKeyFirst_mem _ _ _ hq, minByKeyFirst_le _ _ _ hq,
      minByKeyFirst_tie _ (fun x => x.1) _ _ hpw hq⟩
    unfold get_producer_id_with_least_assigned_consumer
    rw [if_neg h1, if_neg h2, if_neg h3]
    cases optSlot with
    | none =>
      dsimp only
      unfold finalEligible at hq
      simp only [hq]
    | some ws =>
      have h4' : eligAfterSlot (eligibleProducers living withCl) ws.1 ≠ [] := by
        unfold finalEligible at h4
        exact h4
      dsimp only
      rw [if_neg h4']
      unfold finalEligible at hq
      simp only [hq]

theorem c5_least_assigned_consumer_witness :
    get_producer_id_with_least_assigned_consumer [] [1] none [] =
      Except.error QueryError.noActiveProducer :=
  (c5_least_assigned_consumer [] [1] none [] (by decide)).1 rfl

/-- Claim C6: with the lock row's minimum offsets set and neither read stale,
`compute_offset` with `SlotApprox{desired_slot, min_slot}` fails with
`ImpossibleSlotOffset(desired_slot)` exactly when no `producer_slot_seen` record has a slot
in `[min_slot, desired_slot]`, or some shard of that record is not strictly above the
minimum offset of the lock row (a shard missing from the minimum map counting as
unreachable); on success every returned shard offset comes from the record with the
greatest slot in the range (minus the next-read adjustment, paired with that slot). -/
theorem c6_slot_approx_offset (M : Int) (db : QueryDb) (ds ms : Int) (maxRev : Option Int)
    (v : List (Nat × Int × Int))
    (hmin : db.lockRow.minimum_shard_offset = some v)
    (hst1 : ∀ r, maxRev = some r → db.lockRow.revision ≤ r)
    (hst2 : ∀ row, selectTopSlot db.slotSeen ms ds = some row →
      ∀ r, maxRev = some r → row.revision ≤ r) :
    (compute_offset M db (SeekLocation.slotApprox ds ms) maxRev =
        Except.error (QueryError.impossibleSlotOffset ds) ↔
      (selectTopSlot db.slotSeen ms ds = none ∨
        ∃ row, selectTopSlot db.slotSeen ms ds = some row ∧
          shardOffsetsReachable v
            (row.shard_offset_map.map fun q => (q.1, q.2, row.slot)) = false)) ∧
    (∀ res, compute_offset M db (SeekLocation.slotApprox ds ms) maxRev = Except.ok res →
      ∃ row, selectTopSlot db.slotSeen ms ds = some row ∧
        ms ≤ row.slot ∧ row.slot ≤ ds ∧
        (∀ x ∈ db.slotSeen, ms ≤ x.slot → x.slot ≤ ds → x.slot ≤ row.slot) ∧
        res = row.shard_offset_map.map fun q => (q.1, q.2 - 1, row.slot)) := by
  have hminok : get_min_offset_for_producer db.lockRow maxRev = Except.ok v := by
    cases maxRev with
    | none => simp [get_min_offset_for_producer, hmin]
    | some r =>
      have h := hst1 r rfl
      simp only [get_min_offset_for_producer]
      rw [if_neg (by omega)]
      simp [hmin]
  rcases hsel : selectTopSlot db.slotSeen ms ds with _ | row
  · have hslot : get_slot_shard_offsets db.slotSeen ds ms maxRev = Except.ok none := by
      simp only [get_slot_shard_offsets, hsel]
    have hbase : compute_offset_base M db (SeekLocation.slotApprox ds ms) maxRev =
        Except.error (QueryError.impossibleSlotOffset ds) := by
      simp only [compute_offset_base, hminok, hslot]
    have hco : compute_offset M db (SeekLocation.slotApprox ds ms) maxRev =
        Except.error (QueryError.impossibleSlotOffset ds) := by
      simp only [compute_offset, hbase]
    refine ⟨?_, ?_⟩
    · rw [hco]
      simp
    · intro res h
      rw [hco] at h
      simp at h
  · have hrevok : ∀ r, maxRev = some r → row.revision ≤ r := hst2 row hsel
    have hslot : get_slot_shard_offsets db.slotSeen ds ms maxRev =
        Except.ok (some (row.shard_offset_map.map fun q => (q.1, q.2, row.slot))) := by
      simp only [get_slot_shard_offsets, hsel]
      cases maxRev with
      | none => rfl
      | some r =>
        have h := hrevok r rfl
        dsimp only
        rw [if_neg (by omega)]
    by_cases hre : shardOffsetsReachable v
        (row.shard_offset_map.map fun q => (q.1, q.2, row.slot)) = true
    · have hbase : compute_offset_base M db (SeekLocation.slotApprox ds ms) maxRev =
          Except.ok (row.shard_offset_map.map fun q => (q.1, q.2, row.slot)) := by
        simp only [compute_offset_base, hminok, hslot]
        rw [if_pos hre]
      have hco : compute_offset M db (SeekLocation.slotApprox ds ms) maxRev =
          if ((row.shard_offset_map.map fun q => (q.1, q.2, row.slot)).map fun q =>
              (q.1, q.2.1 + seekAdjustment (SeekLocation.slotApprox ds ms), q.2.2)).length =
            db.num_shards
          then Except.ok ((row.shard_offset_map.map fun q => (q.1, q.2, row.slot)).map
            fun q => (q.1, q.2.1 + seekAdjustment (SeekLocation.slotApprox ds ms), q.2.2))
          else Except.error QueryError.mismatchShardCount := by
        simp only [compute_offset, hbase]
      refine ⟨?_, ?_⟩
      · constructor
        · intro h
          rw [hco] at h
          split_ifs at h
          simp at h
        · rintro (h | ⟨row2, hrow2, hfalse⟩)
          · exact Option.noConfusion h
          · injection hrow2 with h2
            subst h2
            rw [hre] at hfalse
            exact Bool.noConfusion hfalse
      · intro res h
        rw [hco] at h
        split_ifs at h with hlen
        · injection h with h2
          obtain ⟨_, hlo, hhi, hmax⟩ := selectTopSlot_spec db.slotSeen ms ds row hsel
          refine ⟨row, rfl, hlo, hhi, hmax, ?_⟩
          rw [← h2, List.map_map]
          refine List.map_congr_left ?_
          intro q _
          simp [seekAdjustment, Function.comp, sub_eq_add_neg]
    · have hre2 : shardOffsetsReachable v
          (row.shard_offset_map.map fun q => (q.1, q.2, row.slot)) = false := by
        simpa using hre
      have hbase : compute_offset_base M db (SeekLocation.slotApprox ds ms) maxRev =
          Except.error (QueryError.impossibleSlotOffset ds) := by
        simp only [compute_offset_base, hminok, hslot]
        rw [if_neg hre]
      have hco : compute_offset M db (SeekLocation.slotApprox ds ms) maxRev =
          Except.error (QueryError.impossibleSlotOffset ds) := by
        simp only [compute_offset, hbase]
      refine ⟨?_, ?_⟩
      · rw [hco]
        constructor
        · intro _
          exact Or.inr ⟨row, rfl, hre2⟩
        · intro _
          rfl
      · intro res h
        rw [hco] at h
        simp at h

theorem c6_slot_approx_offset_witness :
    compute_offset 10 c6Db (SeekLocation.slotApprox 8 6) (some 5) =
        Except.error (QueryError.impossibleSlotOffset 8) ↔
      (selectTopSlot c6Db.slotSeen 6 8 = none ∨
        ∃ row, selectTopSlot c6Db.slotSeen 6 8 = some row ∧
          shardOffsetsReachable [(0, 10, 2)]
            (row.shard_offset_map.map fun q => (q.1, q.2, row.slot)) = false) :=
  (c6_slot_approx_offset 10 c6Db 8 6 (some 5) [(0, 10, 2)] rfl
    (fun r hr => by cases hr; decide)
    (fun row hrow r hr => by
      cases hr
      have h2 : selectTopSlot c6Db.slotSeen 6 8 = some ⟨7, 5, [(0, 20)]⟩ := by decide
      rw [h2] at hrow
      injection hrow with h3
      rw [← h3])).1

/-- Claim C7: the reads backing `Earliest` and `SlotApprox` seeks
(`get_min_offset_for_producer` and `get_slot_shard_offsets`) fail with `StaleRevision`
carrying the caller's `max_revision` exactly when it is strictly below the revision stored
in the row being read; when it is at least the stored revision, or not supplied, the check
passes and the stored offsets are returned unmodified (and with no row in range there is no
revision to check). -/
theorem c7_stale_revision_checks :
    (∀ (lock : LockRow) (v : List (Nat × Int × Int)) (r : Int),
      lock.minimum_shard_offset = some v →
      ((get_min_offset_for_producer lock (some r) =
          Except.error (QueryError.staleRevision r) ↔ r < lock.revision) ∧
        (lock.revision ≤ r → get_min_offset_for_producer lock (some r) = Except.ok v) ∧
        get_min_offset_for_producer lock none = Except.ok v)) ∧
    (∀ (rows : List SlotSeenRow) (ds ms r : Int) (row : SlotSeenRow),
      selectTopSlot rows ms ds = some row →
      ((get_slot_shard_offsets rows ds ms (some r) =
          Except.error (QueryError.staleRevision r) ↔ r < row.revision) ∧
        (row.revision ≤ r → get_slot_shard_offsets rows ds ms (some r) =
          Except.ok (some (row.shard_offset_map.map fun q => (q.1, q.2, row.slot)))) ∧
        get_slot_shard_offsets rows ds ms none =
          Except.ok (some (row.shard_offset_map.map fun q => (q.1, q.2, row.slot))))) ∧
    (∀ (rows : List SlotSeenRow) (ds ms : Int) (maxRev : Option Int),
      selectTopSlot rows ms ds = none →
      get_slot_shard_offsets rows ds ms maxRev = Except.ok none) := by
  refine ⟨?_, ?_, ?_⟩
  · intro lock v r hmin
    refine ⟨?_, ?_, ?_⟩
    · simp only [get_min_offset_for_producer]
      split_ifs with h
      · simp [h]
      · simp [hmin, h]
    · intro hle
      simp only [get_min_offset_for_producer]
      rw [if_neg (by omega)]
      simp [hmin]
    · simp [get_min_offset_for_producer, hmin]
  · intro rows ds ms r row hsel
    refine ⟨?_, ?_, ?_⟩
    · simp only [get_slot_shard_offsets, hsel]
      split_ifs with h
      · simp [h]
      · simp [h]
    · intro hle
      simp only [get_slot_shard_offsets, hsel]
      rw [if_neg (by omega)]
    · simp only [get_slot_shard_offsets, hsel]
  · intro rows ds ms maxRev hsel
    simp only [get_slot_shard_offsets, hsel]

theorem c7_stale_revision_checks_witness :
    get_min_offset_for_producer c7Lock (some 5) = Except.ok [(0, 7, 1)] :=
  (c7_stale_revision_checks.1 c7Lock [(0, 7, 1)] 5 rfl).2.1 (by decide)

/-- Claim C9: `compute_offset` applies a `-1` adjustment to every shard offset for
`Earliest` and `SlotApprox` seeks and no adjustment for `Latest`, and returns a map with
exactly `num_shards` entries, failing with a mismatch error otherwise (and propagating the
seek-specific errors unchanged). -/
theorem c9_compute_offset_adjustment (M : Int) (db : QueryDb) (seek : SeekLocation)
    (maxRev : Option Int) :
    seekAdjustment SeekLocation.latest = 0 ∧
    seekAdjustment SeekLocation.earliest = -1 ∧
    (∀ ds ms, seekAdjustment (SeekLocation.slotApprox ds ms) = -1) ∧
    (∀ base, compute_offset_base M db seek maxRev = Except.ok base →
      compute_offset M db seek maxRev =
        if base.length = db.num_shards
        then Except.ok (base.map fun q => (q.1, q.2.1 + seekAdjustment seek, q.2.2))
        else Except.error QueryError.mismatchShardCount) ∧
    (∀ res, compute_offset M db seek maxRev = Except.ok res →
      res.length = db.num_shards) ∧
    (∀ err, compute_offset_base M db seek maxRev = Except.error err →
      compute_offset M db seek maxRev = Except.error err) := by
  refine ⟨rfl, rfl, fun _ _ => rfl, ?_, ?_, ?_⟩
  · intro base h
    simp only [compute_offset, h, List.length_map]
  · intro res h
    unfold compute_offset at h
    cases hb : compute_offset_base M db seek maxRev with
    | error e =>
      simp only [hb] at h
      exact absurd h (by simp)
    | ok base =>
      simp only [hb] at h
      split_ifs at h with hlen
      injection h with h2
      rw [← h2, List.length_map]
      rw [List.length_map] at hlen
      exact hlen
  · intro err h
    simp only [compute_offset, h]

theorem c9_compute_offset_adjustment_witness :
    ([((0 : Nat), (4 : Int), (2 : Int))] : List (Nat × Int × Int)).length =
      c9Db.num_shards :=
  (c9_compute_offset_adjustment 10 c9Db SeekLocation.earliest none).2.2.2.2.1
    [(0, 4, 2)] (by rfl)
